import Mathlib

/-!
Verification of the PricePal price-comparison core.

Shallow embedding of the repository sources:
  - price-comp.py     (StoreDataLoader._parse_row, EnhancedPriceComparer._find_matches, compare_items)
  - price_compare.py  (StoreDataLoader._parse_tj_row / _parse_wf_row, EnhancedPriceComparer._find_matches,
                       EnhancedPriceComparer.compare_items)
  - price_comp2.py    (TJPricesFetcher._load_csv, WFPricesFetcher._load_csv / find_matches,
                       PriceComparer.compare_items)

Conventions of the embedding:
  - Python floats on price data are modelled by rationals; the price strings the
    feeds carry are plain decimal literals, for which float parsing and
    comparison agree with exact rational arithmetic.
  - A raw CSV row is a record of optional string fields (a key that is absent
    maps to none), mirroring the dict rows produced by csv.DictReader.
  - Code that can raise an exception past the row boundary is modelled in the
    Except monad; exceptions that the source catches locally are collapsed to
    Option results, exactly where the corresponding try/except sits.
  - thefuzz.fuzz.ratio is modelled exactly as the indel similarity it computes:
    round(200 * lcs(a, b) / (len a + len b)) with round-half-to-even
    (python-Levenshtein semantics; 100 when both strings are empty).
  - str.lower is modelled on the ASCII range (the data of this repository is
    ASCII), and str.strip by String.trim.
-/

/-! ## Small string and number helpers -/

/-- ASCII digit test, as used by float() on plain decimal literals. -/
def isDigitChar (c : Char) : Bool :=
  decide ('0' ≤ c) && decide (c ≤ '9')

/-- Numeric value of a digit character. -/
def digitVal (c : Char) : ℕ := c.toNat - '0'.toNat

/-- Value of a digit string, most significant digit first. -/
def natOfDigits (cs : List Char) : ℕ := cs.foldl (fun n c => 10 * n + digitVal c) 0

/-- Split a character list at the first dot, if any. -/
def splitAtDot : List Char → List Char × Option (List Char)
  | [] => ([], none)
  | c :: rest =>
    if c = '.' then ([], some rest)
    else
      let p := splitAtDot rest
      (c :: p.1, p.2)

/-- Model of Python float(s) on the decimal literals the CSV feeds carry:
an optional sign, digits, and at most one dot (at least one digit overall).
Returns none where float() raises ValueError. -/
def parseFloat? (s : String) : Option ℚ :=
  let p : ℚ × List Char :=
    match s.data with
    | '-' :: rest => (-1, rest)
    | '+' :: rest => (1, rest)
    | cs => (1, cs)
  let sgn := p.1
  let q := splitAtDot p.2
  match q.2 with
  | none =>
    if q.1 ≠ [] ∧ q.1.all isDigitChar then some (sgn * (natOfDigits q.1 : ℚ)) else none
  | some fp =>
    if (q.1 ++ fp) ≠ [] ∧ q.1.all isDigitChar ∧ fp.all isDigitChar then
      some (sgn * ((natOfDigits q.1 : ℚ) + (natOfDigits fp : ℚ) / (10 : ℚ) ^ fp.length))
    else none

/-- Model of str.lower on the ASCII range. -/
def strLower (s : String) : String := ⟨s.data.map Char.toLower⟩

/-- Whether the first list is a prefix of the second (Bool-valued). -/
def prefixOfB : List Char → List Char → Bool
  | [], _ => true
  | _ :: _, [] => false
  | a :: as, b :: bs => decide (a = b) && prefixOfB as bs

/-- Model of the Python substring test needle in hay. -/
def containsSub (needle : List Char) : List Char → Bool
  | [] => prefixOfB needle []
  | c :: rest => prefixOfB needle (c :: rest) || containsSub needle rest

/-! ## The fuzzy similarity metric (thefuzz.fuzz.ratio) -/

/-- Length of a longest common subsequence. -/
def lcsLen : List Char → List Char → ℕ
  | [], _ => 0
  | _ :: _, [] => 0
  | a :: as, b :: bs =>
    if a = b then lcsLen as bs + 1
    else max (lcsLen (a :: as) bs) (lcsLen as (b :: bs))
termination_by xs ys => xs.length + ys.length

/-- Round-half-to-even on rationals, the semantics of Python round(). -/
def roundHalfEven (q : ℚ) : ℤ :=
  let f : ℤ := ⌊q⌋
  if q - f < 1/2 then f
  else if (1 : ℚ)/2 < q - f then f + 1
  else if f % 2 = 0 then f else f + 1

/-- Model of thefuzz.fuzz.ratio: indel similarity scaled to 0..100, rounded
half-to-even; 100 when both strings are empty. -/
def fuzzRatio (a b : String) : ℕ :=
  let la := a.data.length
  let lb := b.data.length
  if la + lb = 0 then 100
  else (roundHalfEven ((200 * (lcsLen a.data b.data : ℚ)) / ((la : ℚ) + (lb : ℚ)))).toNat

/-! ## Data model -/

/-- Canonical product record (dataclass Product; price_compare.py and
price_comp2.py omit the sku field, which stays none there). -/
structure Product where
  name : String
  price : ℚ
  store : String
  size : Option String := none
  unit : Option String := none
  brand : Option String := none
  sku : Option String := none
deriving DecidableEq

/-- Result record (dataclass PriceComparison in all three variants). -/
structure PriceComparison where
  tj_total : ℚ
  wf_total : ℚ
  savings : ℚ
  cheaper_store : String
  items : List (Option Product × Option Product)
deriving DecidableEq

/-- A raw Trader-Joes-shaped CSV row (fields sku, retail_price, item_title,
inserted_at, store_code, availability); none models an absent key. -/
structure TJRow where
  sku : Option String := none
  retail_price : Option String := none
  item_title : Option String := none
  inserted_at : Option String := none
  store_code : Option String := none
  availability : Option String := none
deriving DecidableEq

/-- A raw Whole-Foods-shaped CSV row (fields name, regularPrice, salePrice,
incrementalSalePrice, brand, uom); none models an absent key. -/
structure WFRow where
  name : Option String := none
  regularPrice : Option String := none
  salePrice : Option String := none
  incrementalSalePrice : Option String := none
  brand : Option String := none
  uom : Option String := none
deriving DecidableEq

/-! ## Row normalization -/

/-- The allow-list of staple-good keywords from price-comp.py lines 184-188. -/
def meaningful_keywords : List String :=
  ["olive", "oil", "organic", "tuna", "virgin",
   "extra virgin", "white", "potato", "chips",
   "anchovy", "couscous", "rice", "garlic"]

/-- StoreDataLoader._parse_row from price-comp.py lines 163-208.
float failures (ValueError/TypeError) are caught there and yield None. -/
def parse_row (row : TJRow) (store : String) : Option Product :=
  match parseFloat? (row.retail_price.getD "0") with
  | none => none
  | some price =>
    let item_title := strLower (row.item_title.getD "")
    let reject : Bool :=
      if store = "WF" then
        decide (price = 1/100) &&
          !(meaningful_keywords.any fun k => containsSub k.data item_title.data)
      else if store = "TJ" then
        decide (price ≤ 1/100)
      else false
    if reject then none
    else some { name := (row.item_title.getD "").trim, price := price, store := store,
                sku := row.sku }

/-- StoreDataLoader._parse_tj_row from price_compare.py lines 106-118.
The row is dropped when retail_price is missing, empty, or the literal
string 0.01; ValueError/KeyError in the body are caught and yield None. -/
def parse_tj_row (row : TJRow) : Option Product :=
  match row.retail_price with
  | none => none
  | some rp =>
    if rp = "" ∨ rp = "0.01" then none
    else
      match parseFloat? rp with
      | none => none
      | some price =>
        match row.item_title with
        | none => none
        | some t => some { name := t, price := price, store := "TJ" }

/-- StoreDataLoader._parse_wf_row from price_compare.py lines 89-104; the
per-row body of WFPricesFetcher._load_csv in price_comp2.py lines 69-91 is the
same (its inner except (ValueError, KeyError) skips the row). An absent price
key defaults to 0 (float(row.get(k, 0))); the selected price is the first
nonzero of incremental, sale, regular (Python or-chain on floats). -/
def selectWFPrice (regular_price sale_price incremental_price : ℚ) : ℚ :=
  if incremental_price ≠ 0 then incremental_price
  else if sale_price ≠ 0 then sale_price
  else regular_price

def parse_wf_row (row : WFRow) : Option Product :=
  match parseFloat? (row.regularPrice.getD "0"), parseFloat? (row.salePrice.getD "0"),
        parseFloat? (row.incrementalSalePrice.getD "0") with
  | some regular_price, some sale_price, some incremental_price =>
    let price := selectWFPrice regular_price sale_price incremental_price
    if price = 0 then none
    else
      match row.name with
      | none => none
      | some n => some { name := n, price := price, store := "WF",
                         unit := row.uom, brand := row.brand }
  | _, _, _ => none

/-! ## Fuzzy match ranking -/

/-- Descending-by-key relation used to model Python sorted(key=k, reverse=True).
For a total preorder key, stable insertion sort along this relation computes
exactly what Python's stable sort computes. -/
def keyGE {α : Type} (key : α → ℕ) : α → α → Prop := fun a b => key b ≤ key a

instance {α : Type} (key : α → ℕ) : DecidableRel (keyGE key) :=
  fun a b => Nat.decLe (key b) (key a)

instance {α : Type} (key : α → ℕ) : IsTotal α (keyGE key) :=
  ⟨fun a b => (Nat.le_total (key a) (key b)).symm⟩

instance {α : Type} (key : α → ℕ) : IsTrans α (keyGE key) :=
  ⟨fun _ _ _ h1 h2 => Nat.le_trans h2 h1⟩

/-- Stable descending sort by a natural-number key: Python
sorted(l, key=key, reverse=True). -/
def sortDescBy {α : Type} (key : α → ℕ) (l : List α) : List α :=
  List.insertionSort (keyGE key) l

/-- The score the matcher assigns to a product for an already-lowercased
query: 100 on substring containment, else fuzz.ratio. -/
def scoreOf (lquery : String) (p : Product) : ℕ :=
  if containsSub lquery.data (strLower p.name).data then 100
  else fuzzRatio lquery (strLower p.name)

/-- The recomputed sort key of the matcher: fuzz.ratio(query, name.lower()),
with no substring shortcut. -/
def rankKey (lquery : String) (p : Product) : ℕ :=
  fuzzRatio lquery (strLower p.name)

/-- The products whose assigned score passes the threshold, in catalog order. -/
def filteredMatches (lquery : String) (products : List Product) (threshold : ℕ) : List Product :=
  products.filter fun p => decide (threshold ≤ scoreOf lquery p)

/-- EnhancedPriceComparer._find_matches from price-comp.py lines 229-254 and
price_compare.py lines 146-159 (identical bodies): filter by assigned score,
sort descending by the recomputed fuzz.ratio, truncate to 10. -/
def findMatches (query : String) (products : List Product) (threshold : ℕ := 65) : List Product :=
  let lq := strLower query
  (sortDescBy (rankKey lq) (filteredMatches lq products threshold)).take 10

/-- find_matches of WFPricesFetcher / TJPricesFetcher from price_comp2.py
lines 99-115 and 168-184 (identical bodies): same as findMatches but with no
truncation. -/
def findMatchesNoTrunc (query : String) (products : List Product) (threshold : ℕ := 65) : List Product :=
  let lq := strLower query
  sortDescBy (rankKey lq) (filteredMatches lq products threshold)

/-! ## Comparison aggregation -/

/-- The aggregation core of PriceComparer.compare_items (price_comp2.py lines
224-261) and EnhancedPriceComparer.compare_items (price_compare.py lines
193-235, price-comp.py lines 256-305): fold the externally chosen
(TJ, WF) pairs into totals, absolute savings, and the cheaper store computed
by the strict comparison tj_total < wf_total. -/
def compareItems (chosen : List (Option Product × Option Product)) : PriceComparison :=
  let tj_total : ℚ := chosen.foldl (fun acc pr => match pr.1 with
    | some p => acc + p.price
    | none => acc) 0
  let wf_total : ℚ := chosen.foldl (fun acc pr => match pr.2 with
    | some p => acc + p.price
    | none => acc) 0
  { tj_total := tj_total
    wf_total := wf_total
    savings := |tj_total - wf_total|
    cheaper_store := if tj_total < wf_total then "TJ" else "WF"
    items := chosen }

/-! ## Timestamps (datetime.strptime with format %Y-%m-%d %H:%M:%S) -/

/-- A parsed timestamp; ordering is lexicographic on the six fields, the
semantics of datetime comparison. -/
structure Timestamp where
  year : ℕ
  month : ℕ
  day : ℕ
  hour : ℕ
  minute : ℕ
  second : ℕ
deriving DecidableEq

/-- Strict datetime order: lexicographic on the fields. -/
abbrev Timestamp.Lt (a b : Timestamp) : Prop :=
  a.year < b.year ∨ (a.year = b.year ∧ (a.month < b.month ∨ (a.month = b.month ∧
    (a.day < b.day ∨ (a.day = b.day ∧ (a.hour < b.hour ∨ (a.hour = b.hour ∧
    (a.minute < b.minute ∨ (a.minute = b.minute ∧ a.second < b.second)))))))))

/-- Non-strict datetime order. -/
abbrev Timestamp.Le (a b : Timestamp) : Prop := ¬ Timestamp.Lt b a

theorem Timestamp.Lt.trans {a b c : Timestamp}
    (h1 : Timestamp.Lt a b) (h2 : Timestamp.Lt b c) : Timestamp.Lt a c := by
  unfold Timestamp.Lt at *
  omega

theorem Timestamp.Le.trans_lt {a b c : Timestamp}
    (h1 : Timestamp.Le a b) (h2 : Timestamp.Lt b c) : Timestamp.Lt a c := by
  unfold Timestamp.Le Timestamp.Lt at *
  omega

theorem Timestamp.Lt.le {a b : Timestamp} (h : Timestamp.Lt a b) : Timestamp.Le a b := by
  unfold Timestamp.Le Timestamp.Lt at *
  omega

theorem Timestamp.le_refl (a : Timestamp) : Timestamp.Le a a := by
  unfold Timestamp.Le Timestamp.Lt
  omega

/-- Split a character list on a separator character, preserving empty parts
(the semantics of str.split with a one-character separator). -/
def splitOnChar (sep : Char) : List Char → List (List Char)
  | [] => [[]]
  | c :: rest =>
    let r := splitOnChar sep rest
    if c = sep then [] :: r
    else
      match r with
      | [] => [[c]]
      | g :: gs => (c :: g) :: gs

/-- Parse one numeric field of the format: digits only, between minLen and
maxLen characters, value between lo and hi. -/
def parseNumField (cs : List Char) (minLen maxLen lo hi : ℕ) : Option ℕ :=
  if decide (minLen ≤ cs.length) && decide (cs.length ≤ maxLen) && cs.all isDigitChar then
    let n := natOfDigits cs
    if decide (lo ≤ n) && decide (n ≤ hi) then some n else none
  else none

/-- Gregorian leap-year test, as validated by the datetime constructor. -/
def isLeap (y : ℕ) : Bool :=
  decide (y % 4 = 0) && (decide (y % 100 ≠ 0) || decide (y % 400 = 0))

/-- Days in a month, as validated by the datetime constructor. -/
def daysInMonth (y m : ℕ) : ℕ :=
  if m = 2 then (if isLeap y then 29 else 28)
  else if m = 4 ∨ m = 6 ∨ m = 9 ∨ m = 11 then 30
  else 31

/-- Model of datetime.strptime(s, %Y-%m-%d %H:%M:%S) on single-space,
unpadded-or-zero-padded inputs: %Y is four digits, the other fields one or
two digits, with the range checks strptime and the datetime constructor
apply. Returns none where strptime raises ValueError. -/
def strptime? (s : String) : Option Timestamp :=
  match splitOnChar ' ' s.data with
  | [datePart, timePart] =>
    match splitOnChar '-' datePart, splitOnChar ':' timePart with
    | [ys, mos, ds], [hs, mins, secs] =>
      match parseNumField ys 4 4 1 9999, parseNumField mos 1 2 1 12 with
      | some y, some mo =>
        match parseNumField ds 1 2 1 (daysInMonth y mo), parseNumField hs 1 2 0 23,
              parseNumField mins 1 2 0 59, parseNumField secs 1 2 0 61 with
        | some d, some h, some mi, some sec => some ⟨y, mo, d, h, mi, sec⟩
        | _, _, _, _ => none
      | _, _ => none
    | _, _ => none
  | _ => none

/-! ## The Trader Joes loader of price_comp2.py (TJPricesFetcher._load_csv) -/

/-- Value stored in the temp_products dict: price and the raw date string. -/
structure TJEntry where
  price : ℚ
  date : String
deriving DecidableEq

/-- Lookup in the insertion-ordered dict, modelled as an association list. -/
def dictLookup (d : List (String × TJEntry)) (k : String) : Option TJEntry :=
  match d with
  | [] => none
  | kv :: rest => if kv.1 = k then some kv.2 else dictLookup rest k

/-- In-place value replacement for an existing key (dict assignment keeps the
insertion position of the key). -/
def dictReplace (d : List (String × TJEntry)) (k : String) (v : TJEntry) :
    List (String × TJEntry) :=
  match d with
  | [] => []
  | kv :: rest => if kv.1 = k then (kv.1, v) :: rest else kv :: dictReplace rest k v

/-- row.get(inserted_at, 2000-01-01 00:00:00). -/
def tjDate (row : TJRow) : String := row.inserted_at.getD "2000-01-01 00:00:00"

/-- The accepted price of a row in TJPricesFetcher._load_csv lines 138-145:
skip when retail_price is missing, empty or the literal string 0.01
(falsy-or-equality check), and skip when float() fails (the inner
try/except). -/
def tjRowPrice? (row : TJRow) : Option ℚ :=
  match row.retail_price with
  | none => none
  | some rp => if rp = "" ∨ rp = "0.01" then none else parseFloat? rp

/-- One iteration of the row loop of TJPricesFetcher._load_csv lines 136-154.
Exceptions that escape the loop body (KeyError on item_title, ValueError from
strptime) are errors: the enclosing try/except prints and exits the process. -/
def tjStep (d : List (String × TJEntry)) (row : TJRow) :
    Except String (List (String × TJEntry)) :=
  match row.item_title with
  | none => .error "KeyError: item_title"
  | some title =>
    match tjRowPrice? row with
    | none => .ok d
    | some price =>
      match dictLookup d title with
      | none => .ok (d ++ [(title, ⟨price, tjDate row⟩)])
      | some e =>
        match strptime? (tjDate row) with
        | none => .error "ValueError: inserted_at"
        | some tNew =>
          match strptime? e.date with
          | none => .error "ValueError: stored date"
          | some tOld =>
            if Timestamp.Lt tOld tNew then .ok (dictReplace d title ⟨price, tjDate row⟩)
            else .ok d

/-- The row loop, threading the dict. -/
def tjFold (d : List (String × TJEntry)) : List TJRow →
    Except String (List (String × TJEntry))
  | [] => .ok d
  | row :: rest =>
    match tjStep d row with
    | .error e => .error e
    | .ok d2 => tjFold d2 rest

/-- TJPricesFetcher._load_csv from price_comp2.py lines 126-166: fold the rows
into the dict, then emit one Product per stored title. An error models the
uncaught exception path that aborts the whole load (sys.exit(1)). -/
def loadTJ (rows : List TJRow) : Except String (List Product) :=
  match tjFold [] rows with
  | .error e => .error e
  | .ok d => .ok (d.map fun kv => { name := kv.1, price := kv.2.price, store := "TJ" })

/-! ## Helper lemmas about the matcher -/

theorem containsSub_nil (hay : List Char) : containsSub [] hay = true := by
  cases hay <;> simp [containsSub, prefixOfB]

theorem mem_sortDescBy {α : Type} (key : α → ℕ) {l : List α} {x : α} :
    x ∈ sortDescBy key l ↔ x ∈ l :=
  List.mem_insertionSort _

theorem sortDescBy_sorted {α : Type} (key : α → ℕ) (l : List α) :
    (sortDescBy key l).Pairwise (fun a b => key b ≤ key a) :=
  List.sorted_insertionSort (keyGE key) l

theorem filter_orderedInsert_of_eq {α : Type} (key : α → ℕ) (n : ℕ) (x : α) (hx : key x = n) :
    ∀ l : List α, (List.orderedInsert (keyGE key) x l).filter (fun z => decide (key z = n)) =
      x :: l.filter (fun z => decide (key z = n))
  | [] => by simp [hx]
  | y :: ys => by
    by_cases h : keyGE key x y
    · rw [List.orderedInsert_of_le _ _ h]
      simp [List.filter_cons, hx]
    · have hy : key x < key y := Nat.lt_of_not_le h
      have hyn : ¬ (key y = n) := by omega
      simp [List.orderedInsert, if_neg h, List.filter_cons, hyn,
        filter_orderedInsert_of_eq key n x hx ys]

theorem filter_orderedInsert_of_ne {α : Type} (key : α → ℕ) (n : ℕ) (x : α) (hx : ¬ (key x = n)) :
    ∀ l : List α, (List.orderedInsert (keyGE key) x l).filter (fun z => decide (key z = n)) =
      l.filter (fun z => decide (key z = n))
  | [] => by simp [hx]
  | y :: ys => by
    by_cases h : keyGE key x y
    · rw [List.orderedInsert_of_le _ _ h]
      simp [List.filter_cons, hx]
    · simp only [List.orderedInsert, if_neg h, List.filter_cons,
        filter_orderedInsert_of_ne key n x hx ys]

theorem sortDescBy_filter_key {α : Type} (key : α → ℕ) (n : ℕ) :
    ∀ l : List α, (sortDescBy key l).filter (fun z => decide (key z = n)) =
      l.filter (fun z => decide (key z = n))
  | [] => rfl
  | x :: xs => by
    show (List.orderedInsert (keyGE key) x (sortDescBy key xs)).filter _ = _
    by_cases hx : key x = n
    · rw [filter_orderedInsert_of_eq key n x hx, sortDescBy_filter_key key n xs]
      simp [List.filter_cons, hx]
    · rw [filter_orderedInsert_of_ne key n x hx, sortDescBy_filter_key key n xs]
      simp [List.filter_cons, hx]

theorem orderedInsert_of_forall_le {α : Type} (key : α → ℕ) (x : α) (l : List α)
    (h : ∀ y ∈ l, key y ≤ key x) : List.orderedInsert (keyGE key) x l = x :: l := by
  cases l with
  | nil => rfl
  | cons y ys => exact List.orderedInsert_of_le _ _ (h y (by simp))

theorem sortDescBy_of_const_key {α : Type} (key : α → ℕ) (k : ℕ) :
    ∀ l : List α, (∀ y ∈ l, key y = k) → sortDescBy key l = l
  | [], _ => rfl
  | x :: xs, h => by
    show List.orderedInsert (keyGE key) x (sortDescBy key xs) = x :: xs
    rw [sortDescBy_of_const_key key k xs fun y hy => h y (List.mem_cons_of_mem _ hy)]
    refine orderedInsert_of_forall_le key x xs fun y hy => ?_
    rw [h y (List.mem_cons_of_mem _ hy), h x (List.mem_cons_self _ _)]

theorem scoreOf_of_contains {lq : String} {p : Product}
    (h : containsSub lq.data (strLower p.name).data = true) : scoreOf lq p = 100 := by
  simp [scoreOf, h]

theorem scoreOf_empty (p : Product) : scoreOf "" p = 100 :=
  scoreOf_of_contains (containsSub_nil _)

theorem mem_filteredMatches {lq : String} {ps : List Product} {t : ℕ} {p : Product} :
    p ∈ filteredMatches lq ps t ↔ p ∈ ps ∧ t ≤ scoreOf lq p := by
  simp [filteredMatches, List.mem_filter]

theorem findMatches_subset_filtered {q : String} {ps : List Product} {t : ℕ} {p : Product}
    (h : p ∈ findMatches q ps t) : p ∈ filteredMatches (strLower q) ps t := by
  unfold findMatches at h
  exact (mem_sortDescBy _).1 (List.mem_of_mem_take h)

theorem findMatchesNoTrunc_subset_filtered {q : String} {ps : List Product} {t : ℕ} {p : Product}
    (h : p ∈ findMatchesNoTrunc q ps t) : p ∈ filteredMatches (strLower q) ps t := by
  unfold findMatchesNoTrunc at h
  exact (mem_sortDescBy _).1 h

theorem lcsLen_nil_left (l : List Char) : lcsLen [] l = 0 := by
  cases l <;> simp [lcsLen]

theorem strLower_empty : strLower "" = "" := rfl

theorem strLower_data_ne_nil {s : String} (h : s ≠ "") : (strLower s).data ≠ [] := by
  intro hc
  apply h
  have hd : s.data = [] := by simpa [strLower] using hc
  cases s with
  | mk cs =>
    have hcs : cs = [] := hd
    subst hcs
    rfl

theorem fuzzRatio_nil_left {b : String} (hb : b.data ≠ []) : fuzzRatio "" b = 0 := by
  unfold fuzzRatio
  have h0 : ("" : String).data = [] := rfl
  rw [h0]
  have hlen : ¬ ([] : List Char).length + b.data.length = 0 := by
    simpa using (List.length_pos.mpr hb).ne'
  rw [if_neg hlen, lcsLen_nil_left]
  simp [roundHalfEven]

/-! ## Helper lemmas about the normalizers -/

theorem parse_row_tj_eq_none {row : TJRow} {price : ℚ}
    (h : parseFloat? (row.retail_price.getD "0") = some price) (hle : price ≤ 1/100) :
    parse_row row "TJ" = none := by
  unfold parse_row
  rw [h]
  simp only [String.reduceEq, if_false, if_true, reduceIte]
  rw [decide_eq_true hle]
  rfl

theorem parse_row_tj_price_gt {row : TJRow} {p : Product}
    (h : parse_row row "TJ" = some p) : 1/100 < p.price := by
  unfold parse_row at h
  split at h
  · cases h
  next price heq =>
    simp only [String.reduceEq, if_false, if_true, reduceIte] at h
    by_cases hle : price ≤ 1/100
    · rw [decide_eq_true hle] at h
      cases h
    · rw [decide_eq_false hle] at h
      have h2 := Option.some.inj h
      rw [← h2]
      exact lt_of_not_le hle

theorem parse_row_wf_penny {row : TJRow}
    (h : parseFloat? (row.retail_price.getD "0") = some (1/100)) :
    (parse_row row "WF").isSome =
      (meaningful_keywords.any fun k =>
        containsSub k.data (strLower (row.item_title.getD "")).data) := by
  unfold parse_row
  rw [h]
  simp only [String.reduceEq, if_true, reduceIte, decide_eq_true (Eq.refl (1/100 : ℚ))]
  cases hany : meaningful_keywords.any fun k =>
      containsSub k.data (strLower (row.item_title.getD "")).data
  · rfl
  · rfl

theorem parse_tj_row_price {row : TJRow} {p : Product} (h : parse_tj_row row = some p) :
    row.retail_price ≠ some "0.01" ∧ parseFloat? (row.retail_price.getD "") = some p.price := by
  unfold parse_tj_row at h
  split at h
  · cases h
  next rp hrp =>
    split at h
    · cases h
    next hc =>
      split at h
      · cases h
      next price hpf =>
        split at h
        · cases h
        next ttl httl =>
          cases h
          refine ⟨?_, ?_⟩
          · intro hx
            rw [hx] at hrp
            injection hrp with hv
            exact hc (Or.inr hv.symm)
          · rw [hrp]
            exact hpf

theorem parse_wf_row_price_ne_zero {row : WFRow} {p : Product}
    (h : parse_wf_row row = some p) : p.price ≠ 0 := by
  unfold parse_wf_row at h
  split at h
  next rp sp ip h1 h2 h3 =>
    by_cases hz : selectWFPrice rp sp ip = 0
    · rw [if_pos hz] at h
      cases h
    · rw [if_neg hz] at h
      split at h
      · cases h
      next n hn =>
        cases h
        exact hz
  next => cases h

/-! ## Claim theorems -/

/-- C1 (counterexample): the claim says every Store-A row with parsed price
at most 0.01 is rejected and every produced Store-A product has price above
0.01. In price_compare.py (and price_comp2.py) only the literal string 0.01
is rejected: a row with retail_price 0.005 is accepted and yields a product
whose price 1/200 is at most 1/100. -/
theorem tj_floor_counterexample :
    parse_tj_row { sku := none, retail_price := some "0.005", item_title := some "Cheap Item",
                   inserted_at := none, store_code := none, availability := none } =
      some { name := "Cheap Item", price := 1/200, store := "TJ",
             size := none, unit := none, brand := none, sku := none } ∧
    ((1 : ℚ)/200 ≤ 1/100) := by
  constructor
  · with_unfolding_all decide
  · norm_num

/-- C1 (amended): in the price-comp.py variant the Store-A rule holds as
claimed: any parsed price at most 0.01 is rejected and every produced product
has price above 0.01. In the price_compare.py and price_comp2.py variants the
rejection is only by the literal string 0.01 (beyond empty/unparseable), so an
accepted product there is only guaranteed a parseable price whose raw string
was not 0.01. In all three variants a row whose retail_price is the literal
string 0.01 is rejected. -/
theorem tj_floor_amended :
    (∀ (row : TJRow) (price : ℚ), parseFloat? (row.retail_price.getD "0") = some price →
      price ≤ 1/100 → parse_row row "TJ" = none) ∧
    (∀ (row : TJRow) (p : Product), parse_row row "TJ" = some p → 1/100 < p.price) ∧
    (∀ row : TJRow, row.retail_price = some "0.01" →
      parse_row row "TJ" = none ∧ parse_tj_row row = none ∧ tjRowPrice? row = none) ∧
    (∀ (row : TJRow) (p : Product), parse_tj_row row = some p →
      row.retail_price ≠ some "0.01" ∧ parseFloat? (row.retail_price.getD "") = some p.price) := by
  refine ⟨fun row price h hle => parse_row_tj_eq_none h hle,
          fun row p h => parse_row_tj_price_gt h,
          fun row h => ⟨?_, ?_, ?_⟩,
          fun row p h => parse_tj_row_price h⟩
  · refine @parse_row_tj_eq_none row (1/100) ?_ le_rfl
    rw [h]
    with_unfolding_all decide
  · unfold parse_tj_row
    rw [h]
    simp
  · unfold tjRowPrice?
    rw [h]
    simp

/-- C1 (witness for the amended theorem): the literal 0.01 row is rejected by
all three Store-A normalizers, at a concrete row. -/
theorem tj_floor_amended_witness :
    parse_row { sku := none, retail_price := some "0.01", item_title := some "Penny Item",
                inserted_at := none, store_code := none, availability := none } "TJ" = none ∧
    parse_tj_row { sku := none, retail_price := some "0.01", item_title := some "Penny Item",
                   inserted_at := none, store_code := none, availability := none } = none ∧
    tjRowPrice? { sku := none, retail_price := some "0.01", item_title := some "Penny Item",
                  inserted_at := none, store_code := none, availability := none } = none :=
  tj_floor_amended.2.2.1 _ rfl

/-- C2: a Store-B (Whole Foods) row of price-comp.py whose parsed price is
exactly 0.01 is accepted exactly when its lowercased title contains one of
the fixed staple keywords; concretely the Organic Extra Virgin Olive Oil row
is accepted and the Birthday Card row is rejected. -/
theorem wf_penny_keyword_gate :
    (∀ row : TJRow, parseFloat? (row.retail_price.getD "0") = some (1/100) →
      ((parse_row row "WF").isSome =
        (meaningful_keywords.any fun k =>
          containsSub k.data (strLower (row.item_title.getD "")).data))) ∧
    (parse_row { sku := none, retail_price := some "0.01",
                 item_title := some "Organic Extra Virgin Olive Oil",
                 inserted_at := none, store_code := none, availability := none } "WF").isSome = true ∧
    parse_row { sku := none, retail_price := some "0.01", item_title := some "Birthday Card",
                inserted_at := none, store_code := none, availability := none } "WF" = none := by
  refine ⟨fun row h => parse_row_wf_penny h, ?_, ?_⟩
  · with_unfolding_all decide
  · with_unfolding_all decide

/-- C2 (witness): the keyword gate applied at the concrete olive-oil row. -/
theorem wf_penny_keyword_gate_witness :
    (parse_row { sku := none, retail_price := some "0.01",
                 item_title := some "Organic Extra Virgin Olive Oil",
                 inserted_at := none, store_code := none, availability := none } "WF").isSome =
      (meaningful_keywords.any fun k =>
        containsSub k.data (strLower ((some "Organic Extra Virgin Olive Oil" : Option String).getD "")).data) :=
  wf_penny_keyword_gate.1 _ (by with_unfolding_all decide)

/-- C3 (counterexample): the claim says store A (TJ) is reported cheaper on an
exact tie. The aggregator computes the cheaper store by the strict comparison
tj_total < wf_total, so a tied session reports WF. -/
theorem totals_tie_counterexample :
    (compareItems [(some { name := "Eggs", price := 2, store := "TJ",
                           size := none, unit := none, brand := none, sku := none },
                    some { name := "Eggs Large", price := 2, store := "WF",
                           size := none, unit := none, brand := none, sku := none })]).tj_total =
      (compareItems [(some { name := "Eggs", price := 2, store := "TJ",
                             size := none, unit := none, brand := none, sku := none },
                      some { name := "Eggs Large", price := 2, store := "WF",
                             size := none, unit := none, brand := none, sku := none })]).wf_total ∧
    (compareItems [(some { name := "Eggs", price := 2, store := "TJ",
                           size := none, unit := none, brand := none, sku := none },
                    some { name := "Eggs Large", price := 2, store := "WF",
                           size := none, unit := none, brand := none, sku := none })]).cheaper_store = "WF" ∧
    ("WF" : String) ≠ "TJ" := by
  refine ⟨by with_unfolding_all decide, by with_unfolding_all decide, by decide⟩

/-- C3 (amended): savings is the absolute difference of the totals, and the
cheaper store is TJ exactly when its total is strictly lower, WF otherwise —
so WF, not store A, is reported on an exact tie. -/
theorem totals_consistency_amended (chosen : List (Option Product × Option Product)) :
    (compareItems chosen).savings =
      |(compareItems chosen).tj_total - (compareItems chosen).wf_total| ∧
    ((compareItems chosen).tj_total < (compareItems chosen).wf_total ↔
      (compareItems chosen).cheaper_store = "TJ") ∧
    (¬ (compareItems chosen).tj_total < (compareItems chosen).wf_total ↔
      (compareItems chosen).cheaper_store = "WF") := by
  unfold compareItems
  refine ⟨rfl, ?_, ?_⟩ <;>
    · simp only []
      split <;> simp_all

/-- C3 (witness for the amended theorem): a session where TJ is strictly
cheaper reports TJ, at concrete chosen products. -/
theorem totals_consistency_amended_witness :
    (compareItems [(some { name := "Organic Bananas", price := 69/100, store := "TJ",
                           size := none, unit := none, brand := none, sku := none },
                    some { name := "365 Organic Banana", price := 79/100, store := "WF",
                           size := none, unit := none, brand := none, sku := none })]).cheaper_store = "TJ" :=
  (totals_consistency_amended _).2.1.mp (by with_unfolding_all decide)

/-- C4 (counterexample): the claim says the ranking operation never returns
more than 10 candidates. find_matches of price_comp2.py has no truncation: on
a catalog of eleven products all matching the query it returns eleven. -/
theorem topk_counterexample :
    10 < (findMatchesNoTrunc "a"
      (List.replicate 11 { name := "a", price := 1, store := "WF",
                           size := none, unit := none, brand := none, sku := none }) 65).length := by
  with_unfolding_all decide

/-- C4 (amended): the truncating variants (price-comp.py, price_compare.py)
return at most 10 candidates; the price_comp2.py variant returns every product
whose assigned score passes the threshold, with no length bound. In every
variant each returned candidate has assigned score at least the threshold. -/
theorem topk_amended (q : String) (ps : List Product) (t : ℕ) :
    (findMatches q ps t).length ≤ 10 ∧
    (∀ p ∈ findMatches q ps t, t ≤ scoreOf (strLower q) p) ∧
    (∀ p ∈ findMatchesNoTrunc q ps t, t ≤ scoreOf (strLower q) p) := by
  refine ⟨?_, ?_, ?_⟩
  · unfold findMatches
    exact (List.length_take _ _).trans_le (min_le_left _ _)
  · intro p hp
    exact (mem_filteredMatches.1 (findMatches_subset_filtered hp)).2
  · intro p hp
    exact (mem_filteredMatches.1 (findMatchesNoTrunc_subset_filtered hp)).2

/-- C4 (witness for the amended theorem): bounds applied at a concrete query
and catalog. -/
theorem topk_amended_witness :
    (findMatches "a" [{ name := "a", price := 1, store := "WF",
                        size := none, unit := none, brand := none, sku := none }] 65).length ≤ 10 ∧
    65 ≤ scoreOf (strLower "a") { name := "a", price := 1, store := "WF",
                                  size := none, unit := none, brand := none, sku := none } :=
  ⟨(topk_amended "a" [{ name := "a", price := 1, store := "WF",
                        size := none, unit := none, brand := none, sku := none }] 65).1,
   (topk_amended "a" [{ name := "a", price := 1, store := "WF",
                        size := none, unit := none, brand := none, sku := none }] 65).2.1 _
     (by with_unfolding_all decide)⟩

/-- C5: a product whose lowercased name contains the lowercased query is
assigned score exactly 100 (the substring shortcut), and therefore passes the
threshold filter for any threshold at most 100. -/
theorem substring_shortcut_score (q : String) (ps : List Product) (p : Product) (t : ℕ)
    (hmem : p ∈ ps) (hsub : containsSub (strLower q).data (strLower p.name).data = true)
    (ht : t ≤ 100) :
    scoreOf (strLower q) p = 100 ∧ p ∈ filteredMatches (strLower q) ps t := by
  have hs := scoreOf_of_contains hsub
  refine ⟨hs, mem_filteredMatches.2 ⟨hmem, ?_⟩⟩
  rw [hs]
  exact ht

/-- C5 (witness): the substring shortcut applied at the concrete query Banana
against Organic Bananas. -/
theorem substring_shortcut_score_witness :
    scoreOf (strLower "Banana") { name := "Organic Bananas", price := 69/100, store := "TJ",
                                  size := none, unit := none, brand := none, sku := none } = 100 ∧
    { name := "Organic Bananas", price := 69/100, store := "TJ",
      size := none, unit := none, brand := none, sku := none } ∈
      filteredMatches (strLower "Banana")
        [{ name := "Organic Bananas", price := 69/100, store := "TJ",
           size := none, unit := none, brand := none, sku := none }] 65 :=
  substring_shortcut_score "Banana" _ _ 65 (by simp) (by with_unfolding_all decide) (by norm_num)

/-- C6 (counterexample): the claim says candidates are sorted descending by
the assigned score, substring matches (score 100) at or above lower-scored
candidates. The sort key recomputes fuzz.ratio and ignores the substring
shortcut: for query abc, the substring match abczzzzz (assigned 100, ratio 55)
is ordered below abd (assigned and ratio 67). -/
theorem ranking_order_counterexample :
    findMatches "abc" [{ name := "abczzzzz", price := 1, store := "WF",
                         size := none, unit := none, brand := none, sku := none },
                       { name := "abd", price := 2, store := "WF",
                         size := none, unit := none, brand := none, sku := none }] 65 =
      [{ name := "abd", price := 2, store := "WF",
         size := none, unit := none, brand := none, sku := none },
       { name := "abczzzzz", price := 1, store := "WF",
         size := none, unit := none, brand := none, sku := none }] ∧
    scoreOf (strLower "abc") { name := "abczzzzz", price := 1, store := "WF",
                               size := none, unit := none, brand := none, sku := none } = 100 ∧
    scoreOf (strLower "abc") { name := "abd", price := 2, store := "WF",
                               size := none, unit := none, brand := none, sku := none } = 67 ∧
    (67 : ℕ) < 100 := by
  refine ⟨by with_unfolding_all decide, by with_unfolding_all decide,
          by with_unfolding_all decide, by decide⟩

/-- C6 (amended): the candidate list is sorted descending by the recomputed
fuzzy ratio fuzz.ratio(query, name) — not by the assigned score, so substring
matches are not guaranteed to rank above lower-assigned-score candidates —
with ties kept stably in catalog order, and the truncating variants cut to
the top 10 of that order. -/
theorem ranking_order_amended (q : String) (ps : List Product) (t : ℕ) :
    (findMatches q ps t).length ≤ 10 ∧
    (findMatches q ps t).Pairwise
      (fun a b => rankKey (strLower q) b ≤ rankKey (strLower q) a) ∧
    (findMatchesNoTrunc q ps t).Pairwise
      (fun a b => rankKey (strLower q) b ≤ rankKey (strLower q) a) ∧
    (∀ n : ℕ, (findMatchesNoTrunc q ps t).filter
        (fun p => decide (rankKey (strLower q) p = n)) =
      (filteredMatches (strLower q) ps t).filter
        (fun p => decide (rankKey (strLower q) p = n))) := by
  refine ⟨?_, ?_, ?_, ?_⟩
  · unfold findMatches
    exact (List.length_take _ _).trans_le (min_le_left _ _)
  · unfold findMatches
    exact (sortDescBy_sorted _ _).sublist (List.take_sublist _ _)
  · exact sortDescBy_sorted _ _
  · intro n
    exact sortDescBy_filter_key _ n _

/-- C8 (counterexample): the claim says every normalized product has price
strictly above zero even on negative inputs. The Whole Foods parser selects
the first nonzero price, and a negative regular price is nonzero: it produces
a product with price -5. -/
theorem positive_price_counterexample :
    parse_wf_row { name := some "Mystery Credit", regularPrice := some "-5.0",
                   salePrice := none, incrementalSalePrice := none,
                   brand := none, uom := none } =
      some { name := "Mystery Credit", price := -5, store := "WF",
             size := none, unit := none, brand := none, sku := none } ∧
    (-5 : ℚ) < 0 := by
  refine ⟨by with_unfolding_all decide, by norm_num⟩

/-- C8 (amended): the Whole Foods normalizers guarantee only a nonzero price
(negative survives); the price-comp.py Store-A branch guarantees price above
0.01 hence positive; the price_compare.py Store-A parser guarantees only a
parseable price whose raw string was not the literal 0.01, so zero and
negative prices can be produced there. -/
theorem positive_price_amended :
    (∀ (row : WFRow) (p : Product), parse_wf_row row = some p → p.price ≠ 0) ∧
    (∀ (row : TJRow) (p : Product), parse_row row "TJ" = some p → 0 < p.price) ∧
    (∀ (row : TJRow) (p : Product), parse_tj_row row = some p →
      parseFloat? (row.retail_price.getD "") = some p.price) := by
  refine ⟨fun row p h => parse_wf_row_price_ne_zero h,
          fun row p h => lt_trans (by norm_num) (parse_row_tj_price_gt h),
          fun row p h => (parse_tj_row_price h).2⟩

/-- C8 (witness for the amended theorem): nonzero and positive price at
concrete accepted rows. -/
theorem positive_price_amended_witness :
    ({ name := "Oat Milk", price := 1, store := "WF",
       size := none, unit := none, brand := none, sku := none } : Product).price ≠ 0 ∧
    (0 : ℚ) < ({ name := "Milk", price := 7/2, store := "TJ",
                 size := none, unit := none, brand := none, sku := none } : Product).price :=
  ⟨positive_price_amended.1
      { name := some "Oat Milk", regularPrice := some "1.0", salePrice := none,
        incrementalSalePrice := none, brand := none, uom := none } _
      (by with_unfolding_all decide),
   positive_price_amended.2.1
      { sku := none, retail_price := some "3.50", item_title := some "Milk",
        inserted_at := none, store_code := none, availability := none } _
      (by with_unfolding_all decide)⟩

/-- C10 (counterexample): the claim says an empty query returns the first
min(10, catalog size) products in every ranking variant. The price_comp2.py
variant has no truncation: on an eleven-product catalog it returns all
eleven. -/
theorem empty_query_counterexample :
    (findMatchesNoTrunc ""
      (List.replicate 11 { name := "a", price := 1, store := "WF",
                           size := none, unit := none, brand := none, sku := none }) 65).length = 11 ∧
    (11 : ℕ) ≠ min 10 11 := by
  refine ⟨by with_unfolding_all decide, by decide⟩

/-- C10 (amended): for the empty query every product is assigned score 100
(the empty string is a substring of every name) and kept for any threshold at
most 100; on a catalog of nonempty-named products the recomputed sort keys
all tie at 0, so the stable sort preserves catalog order: the truncating
variants return the first min(10, n) products and the price_comp2.py variant
returns the whole catalog. -/
theorem empty_query_amended (ps : List Product) (t : ℕ) (ht : t ≤ 100)
    (hn : ∀ p ∈ ps, p.name ≠ "") :
    (∀ p ∈ ps, scoreOf (strLower "") p = 100) ∧
    findMatches "" ps t = ps.take 10 ∧
    findMatchesNoTrunc "" ps t = ps := by
  have hsc : ∀ p ∈ ps, scoreOf (strLower "") p = 100 := fun p _ => scoreOf_empty p
  have hfil : filteredMatches (strLower "") ps t = ps := by
    unfold filteredMatches
    apply List.filter_eq_self.mpr
    intro p hp
    rw [hsc p hp]
    simpa using ht
  have hkey : ∀ p ∈ ps, rankKey (strLower "") p = 0 := by
    intro p hp
    unfold rankKey
    rw [strLower_empty]
    exact fuzzRatio_nil_left (strLower_data_ne_nil (hn p hp))
  have hsort : sortDescBy (rankKey (strLower "")) ps = ps :=
    sortDescBy_of_const_key _ 0 ps hkey
  refine ⟨hsc, ?_, ?_⟩
  · show (sortDescBy (rankKey (strLower "")) (filteredMatches (strLower "") ps t)).take 10 =
      ps.take 10
    rw [hfil, hsort]
  · show sortDescBy (rankKey (strLower "")) (filteredMatches (strLower "") ps t) = ps
    rw [hfil, hsort]

/-- C10 (witness for the amended theorem): the empty query on a concrete
one-product catalog returns that product. -/
theorem empty_query_amended_witness :
    findMatches "" [{ name := "Organic Bananas", price := 69/100, store := "TJ",
                      size := none, unit := none, brand := none, sku := none }] 65 =
      [{ name := "Organic Bananas", price := 69/100, store := "TJ",
         size := none, unit := none, brand := none, sku := none }] :=
  ((empty_query_amended
      [{ name := "Organic Bananas", price := 69/100, store := "TJ",
         size := none, unit := none, brand := none, sku := none }] 65
      (by norm_num) (by decide)).2.1).trans rfl

/-! ## Dict lemmas for the TJ loader -/

theorem dictLookup_eq_none_iff {d : List (String × TJEntry)} {k : String} :
    dictLookup d k = none ↔ k ∉ d.map Prod.fst := by
  induction d with
  | nil => simp [dictLookup]
  | cons kv rest ih =>
    by_cases h : kv.1 = k
    · simp [dictLookup, h]
    · simp [dictLookup, h, ih, Ne.symm h]

theorem dictLookup_append {d1 d2 : List (String × TJEntry)} {k : String} :
    dictLookup (d1 ++ d2) k =
      match dictLookup d1 k with
      | some v => some v
      | none => dictLookup d2 k := by
  induction d1 with
  | nil => rfl
  | cons kv rest ih => by_cases h : kv.1 = k <;> simp [dictLookup, h, ih]

theorem dictLookup_replace_self {d : List (String × TJEntry)} {k : String} {e v : TJEntry}
    (h : dictLookup d k = some e) : dictLookup (dictReplace d k v) k = some v := by
  induction d with
  | nil => cases h
  | cons kv rest ih =>
    by_cases hk : kv.1 = k
    · simp [dictLookup, dictReplace, hk]
    · simp only [dictLookup, dictReplace, hk, if_false, if_neg hk] at h ⊢
      exact ih h

theorem dictLookup_replace_ne {d : List (String × TJEntry)} {k n : String} {v : TJEntry}
    (hne : n ≠ k) : dictLookup (dictReplace d k v) n = dictLookup d n := by
  induction d with
  | nil => rfl
  | cons kv rest ih =>
    have hkn : ¬ (k = n) := fun hx => hne hx.symm
    by_cases hk : kv.1 = k
    · have : ¬ kv.1 = n := by rw [hk]; exact fun hx => hne hx.symm
      simp [dictReplace, dictLookup, hk, this, hkn, ih]
    · by_cases hn : kv.1 = n
      · simp [dictReplace, dictLookup, hk, hn, hkn, hne]
      · simp [dictReplace, dictLookup, hk, hn, hkn, ih, hne]

theorem map_fst_dictReplace {d : List (String × TJEntry)} {k : String} {v : TJEntry} :
    (dictReplace d k v).map Prod.fst = d.map Prod.fst := by
  induction d with
  | nil => rfl
  | cons kv rest ih => by_cases hk : kv.1 = k <;> simp [dictReplace, hk, ih]

theorem dictLookup_mem {d : List (String × TJEntry)} {k : String} {v : TJEntry}
    (h : dictLookup d k = some v) : (k, v) ∈ d := by
  induction d with
  | nil => cases h
  | cons kv rest ih =>
    by_cases hk : kv.1 = k
    · rw [dictLookup, if_pos hk] at h
      injection h with h
      subst hk
      rw [← h]
      exact List.mem_cons_self _ _
    · rw [dictLookup, if_neg hk] at h
      exact List.mem_cons_of_mem _ (ih h)

theorem dictLookup_of_mem {d : List (String × TJEntry)} (hnd : (d.map Prod.fst).Nodup)
    {k : String} {v : TJEntry} (hm : (k, v) ∈ d) : dictLookup d k = some v := by
  induction d with
  | nil => cases hm
  | cons kv rest ih =>
    rw [List.map_cons, List.nodup_cons] at hnd
    rcases List.mem_cons.1 hm with heq | hmem
    · rw [← heq]
      simp [dictLookup]
    · have hk : ¬ kv.1 = k := by
        intro hx
        apply hnd.1
        rw [hx]
        exact List.mem_map.2 ⟨(k, v), hmem, rfl⟩
      rw [dictLookup, if_neg hk]
      exact ih hnd.2 hmem

theorem dict_filter_length {d : List (String × TJEntry)} (h : (d.map Prod.fst).Nodup)
    (n : String) : (d.filter fun kv => decide (kv.1 = n)).length ≤ 1 := by
  induction d with
  | nil => simp
  | cons kv rest ih =>
    rw [List.map_cons, List.nodup_cons] at h
    by_cases hk : kv.1 = n
    · rw [List.filter_cons_of_pos (by simp [hk])]
      have hz : rest.filter (fun kv => decide (kv.1 = n)) = [] := by
        apply List.filter_eq_nil_iff.mpr
        intro kv2 hm
        simp only [decide_eq_true_eq]
        intro hx
        apply h.1
        rw [hk, ← hx]
        exact List.mem_map.2 ⟨kv2, hm, rfl⟩
      simp [hz]
    · rw [List.filter_cons_of_neg (by simp [hk])]
      exact ih h.2

theorem exists_mem_append_singleton {α : Type} {l : List α} {x : α} {P : α → Prop} :
    (∃ r ∈ l ++ [x], P r) ↔ (∃ r ∈ l, P r) ∨ P x := by
  constructor
  · rintro ⟨r, hr, hp⟩
    rcases List.mem_append.1 hr with h | h
    · exact Or.inl ⟨r, h, hp⟩
    · rw [List.mem_singleton] at h
      subst h
      exact Or.inr hp
  · rintro (⟨r, hr, hp⟩ | hp)
    · exact ⟨r, List.mem_append_left _ hr, hp⟩
    · exact ⟨x, List.mem_append_right _ (List.mem_singleton_self x), hp⟩

/-! ## The recency-dedup invariant of the TJ loader -/

/-- A row is an accepted source row for name n: it carries that title and its
price passes the loader's skip checks. -/
def accFor (n : String) (r : TJRow) : Prop :=
  r.item_title = some n ∧ (tjRowPrice? r).isSome = true

/-- The dict entry for n is the first row of the processed prefix attaining
the maximum timestamp among accepted rows titled n: strictly later than every
earlier accepted row titled n, at least as late as every later one. -/
def WinsEntry (pre : List TJRow) (n : String) (e : TJEntry) : Prop :=
  ∃ l₁ r l₂, pre = l₁ ++ r :: l₂ ∧ accFor n r ∧ tjRowPrice? r = some e.price ∧
    tjDate r = e.date ∧
    (∀ r₁ ∈ l₁, accFor n r₁ → ∃ t₁ t, strptime? (tjDate r₁) = some t₁ ∧
      strptime? (tjDate r) = some t ∧ Timestamp.Lt t₁ t) ∧
    (∀ r₂ ∈ l₂, accFor n r₂ → ∃ t₂ t, strptime? (tjDate r₂) = some t₂ ∧
      strptime? (tjDate r) = some t ∧ Timestamp.Le t₂ t)

/-- Loop invariant of TJPricesFetcher._load_csv relating the processed prefix
of rows to the temp_products dict. -/
structure TJInv (pre : List TJRow) (d : List (String × TJEntry)) : Prop where
  nodup : (d.map Prod.fst).Nodup
  keys : ∀ n : String, (dictLookup d n).isSome = true ↔ ∃ r ∈ pre, accFor n r
  wins : ∀ n e, dictLookup d n = some e → WinsEntry pre n e

theorem accFor_row_iff {row : TJRow} {title : String} {price : ℚ} {n : String}
    (httl : row.item_title = some title) (hpr : tjRowPrice? row = some price) :
    accFor n row ↔ n = title := by
  unfold accFor
  rw [httl, hpr]
  constructor
  · rintro ⟨h1, _⟩
    injection h1 with h1
    exact h1.symm
  · rintro rfl
    exact ⟨rfl, rfl⟩

theorem not_accFor_of_price_none {row : TJRow} (hpr : tjRowPrice? row = none) (n : String) :
    ¬ accFor n row := by
  rintro ⟨_, h2⟩
  rw [hpr] at h2
  cases h2

theorem WinsEntry.extend {pre : List TJRow} {row : TJRow} {n : String} {e : TJEntry}
    (hw : WinsEntry pre n e)
    (hrow : accFor n row → ∃ t₂ t, strptime? (tjDate row) = some t₂ ∧
      strptime? e.date = some t ∧ Timestamp.Le t₂ t) :
    WinsEntry (pre ++ [row]) n e := by
  obtain ⟨l₁, r, l₂, hpre, hacc, hpr, hdate, hl₁, hl₂⟩ := hw
  refine ⟨l₁, r, l₂ ++ [row], by rw [hpre]; simp, hacc, hpr, hdate, hl₁, ?_⟩
  intro r₂ hr₂ hacc₂
  rcases List.mem_append.1 hr₂ with hin | hin
  · exact hl₂ r₂ hin hacc₂
  · rw [List.mem_singleton] at hin
    subst hin
    obtain ⟨t₂, t, ha, hb, hc⟩ := hrow hacc₂
    refine ⟨t₂, t, ha, ?_, hc⟩
    rw [hdate]
    exact hb

theorem winsEntry_new {pre : List TJRow} {row : TJRow} {title : String} {price : ℚ}
    (httl : row.item_title = some title) (hpr : tjRowPrice? row = some price)
    (hnone : ∀ r ∈ pre, ¬ accFor title r) :
    WinsEntry (pre ++ [row]) title ⟨price, tjDate row⟩ := by
  refine ⟨pre, row, [], rfl, ⟨httl, by rw [hpr]; rfl⟩, hpr, rfl, ?_, by simp⟩
  intro r₁ hr₁ hacc₁
  exact absurd hacc₁ (hnone r₁ hr₁)

theorem winsEntry_replace {pre : List TJRow} {row : TJRow} {title : String} {price : ℚ}
    {e : TJEntry} {tOld tNew : Timestamp} (hw : WinsEntry pre title e)
    (httl : row.item_title = some title) (hpr : tjRowPrice? row = some price)
    (hNew : strptime? (tjDate row) = some tNew) (hOld : strptime? e.date = some tOld)
    (hlt : Timestamp.Lt tOld tNew) :
    WinsEntry (pre ++ [row]) title ⟨price, tjDate row⟩ := by
  obtain ⟨l₁, r, l₂, hpre, hacc, hpr0, hdate, hl₁, hl₂⟩ := hw
  refine ⟨pre, row, [], rfl, ⟨httl, by rw [hpr]; rfl⟩, hpr, rfl, ?_, by simp⟩
  intro r₁ hr₁ hacc₁
  rw [hpre] at hr₁
  have hOldr : strptime? (tjDate r) = some tOld := by rw [hdate]; exact hOld
  rcases List.mem_append.1 hr₁ with hin | hin
  · obtain ⟨t₁, t, ha, hb, hc⟩ := hl₁ r₁ hin hacc₁
    have ht : t = tOld := by
      rw [hb] at hOldr
      injection hOldr
    refine ⟨t₁, tNew, ha, hNew, Timestamp.Lt.trans ?_ hlt⟩
    rw [← ht]
    exact hc
  · rcases List.mem_cons.1 hin with heq | hin₂
    · subst heq
      exact ⟨tOld, tNew, hOldr, hNew, hlt⟩
    · obtain ⟨t₂, t, ha, hb, hc⟩ := hl₂ r₁ hin₂ hacc₁
      have ht : t = tOld := by
        rw [hb] at hOldr
        injection hOldr
      refine ⟨t₂, tNew, ha, hNew, Timestamp.Le.trans_lt ?_ hlt⟩
      rw [← ht]
      exact hc

theorem tjStep_inv {pre : List TJRow} {d : List (String × TJEntry)} {row : TJRow}
    {d' : List (String × TJEntry)} (inv : TJInv pre d) (h : tjStep d row = Except.ok d') :
    TJInv (pre ++ [row]) d' := by
  unfold tjStep at h
  split at h
  · cases h
  next title httl =>
    split at h
    -- row skipped: price check fails
    next hpr =>
      cases h
      refine ⟨inv.nodup, ?_, ?_⟩
      · intro n
        rw [exists_mem_append_singleton]
        constructor
        · intro hs
          exact Or.inl ((inv.keys n).1 hs)
        · rintro (hex | hacc)
          · exact (inv.keys n).2 hex
          · exact absurd hacc (not_accFor_of_price_none hpr n)
      · intro n e he
        exact (inv.wins n e he).extend
          fun hacc => absurd hacc (not_accFor_of_price_none hpr n)
    next price hpr =>
      have haccrow : ∀ n, accFor n row ↔ n = title :=
        fun n => accFor_row_iff httl hpr
      split at h
      -- new title: append to the dict
      next hlk =>
        cases h
        have hknot : title ∉ d.map Prod.fst := dictLookup_eq_none_iff.1 hlk
        refine ⟨?_, ?_, ?_⟩
        · rw [List.map_append, List.nodup_append]
          refine ⟨inv.nodup, List.nodup_singleton _, ?_⟩
          intro a ha hb
          rw [List.map_cons, List.map_nil, List.mem_singleton] at hb
          subst hb
          exact hknot ha
        · intro n
          rw [exists_mem_append_singleton, ← inv.keys n, dictLookup_append, haccrow n]
          cases hdn : dictLookup d n with
          | some v => simp
          | none =>
            by_cases hnt : title = n
            · subst hnt
              simp [dictLookup]
            · simp only [dictLookup, if_neg hnt, Option.isSome_none, Bool.false_eq_true,
                false_iff, false_or]
              exact fun heq => hnt heq.symm
        · intro n e he
          rw [dictLookup_append] at he
          cases hdn : dictLookup d n with
          | some v =>
            rw [hdn] at he
            simp only [] at he
            injection he with he
            subst he
            refine (inv.wins _ _ hdn).extend fun hacc => ?_
            rw [haccrow n] at hacc
            subst hacc
            rw [hdn] at hlk
            cases hlk
          | none =>
            rw [hdn] at he
            simp only [] at he
            by_cases hnt : title = n
            · subst hnt
              rw [dictLookup, if_pos rfl] at he
              injection he with he
              subst he
              have hnone : ∀ r ∈ pre, ¬ accFor title r := by
                intro r hr hacc
                have : (dictLookup d title).isSome = true :=
                  (inv.keys title).2 ⟨r, hr, hacc⟩
                rw [hlk] at this
                cases this
              exact winsEntry_new httl hpr hnone
            · rw [dictLookup, if_neg hnt] at he
              cases he
      next e₀ hlk =>
        split at h
        · cases h
        next tNew hNew =>
          split at h
          · cases h
          next tOld hOld =>
            split at h
            -- strictly newer: replace the stored entry
            next hlt =>
              cases h
              refine ⟨?_, ?_, ?_⟩
              · rw [map_fst_dictReplace]
                exact inv.nodup
              · intro n
                rw [exists_mem_append_singleton, haccrow n]
                by_cases hnt : n = title
                · subst hnt
                  rw [dictLookup_replace_self hlk]
                  simp only [Option.isSome_some, true_iff]
                  exact Or.inr trivial
                · rw [dictLookup_replace_ne hnt, ← inv.keys n]
                  simp [hnt]
              · intro n e he
                by_cases hnt : n = title
                · subst hnt
                  rw [dictLookup_replace_self hlk] at he
                  injection he with he
                  subst he
                  exact winsEntry_replace (inv.wins n e₀ hlk) httl hpr hNew hOld hlt
                · rw [dictLookup_replace_ne hnt] at he
                  refine (inv.wins n e he).extend fun hacc => ?_
                  rw [haccrow n] at hacc
                  exact absurd hacc hnt
            -- not newer: keep the stored entry
            next hnlt =>
              cases h
              refine ⟨inv.nodup, ?_, ?_⟩
              · intro n
                rw [exists_mem_append_singleton, haccrow n]
                by_cases hnt : n = title
                · subst hnt
                  rw [hlk]
                  simp only [Option.isSome_some, true_iff]
                  exact Or.inr trivial
                · rw [← inv.keys n]
                  simp [hnt]
              · intro n e he
                refine (inv.wins n e he).extend fun hacc => ?_
                rw [haccrow n] at hacc
                subst hacc
                rw [hlk] at he
                injection he with he
                subst he
                exact ⟨tNew, tOld, hNew, hOld, hnlt⟩

theorem tjInv_nil : TJInv [] [] := by
  refine ⟨List.nodup_nil, ?_, ?_⟩
  · intro n
    simp [dictLookup]
  · intro n e he
    cases he

theorem tjFold_inv : ∀ {rest pre : List TJRow} {d d' : List (String × TJEntry)},
    TJInv pre d → tjFold d rest = Except.ok d' → TJInv (pre ++ rest) d'
  | [], pre, d, d', inv, h => by
    unfold tjFold at h
    injection h with h
    subst h
    simpa using inv
  | row :: rest, pre, d, d', inv, h => by
    unfold tjFold at h
    split at h
    · cases h
    next d2 hstep =>
      have inv2 := tjStep_inv inv hstep
      have hrec := tjFold_inv inv2 h
      rw [List.append_assoc] at hrec
      simpa using hrec

theorem loadTJ_ok_dict {rows : List TJRow} {ps : List Product}
    (h : loadTJ rows = Except.ok ps) :
    ∃ d, tjFold [] rows = Except.ok d ∧
      ps = d.map (fun kv => { name := kv.1, price := kv.2.price, store := "TJ" }) ∧
      TJInv rows d := by
  unfold loadTJ at h
  split at h
  · cases h
  next d hd =>
    injection h with h
    subst h
    refine ⟨d, hd, rfl, ?_⟩
    have := tjFold_inv tjInv_nil hd
    simpa using this

/-- C7: under the recency-by-name policy of TJPricesFetcher._load_csv, a
successful load keeps at most one product per name; a name appears exactly
when some accepted row carries it; and each kept product comes from an
accepted row of that name whose parsed inserted_at timestamp (absent
timestamps defaulting to 2000-01-01 00:00:00) is strictly later than every
earlier accepted same-name row and at least as late as every later one — the
first row attaining the maximum, so ties keep the first-seen row. -/
theorem tj_recency_dedup (rows : List TJRow) (ps : List Product)
    (h : loadTJ rows = Except.ok ps) :
    (∀ n : String, (ps.filter fun p => decide (p.name = n)).length ≤ 1) ∧
    (∀ n : String, (∃ p ∈ ps, p.name = n) ↔
      ∃ r ∈ rows, r.item_title = some n ∧ (tjRowPrice? r).isSome = true) ∧
    (∀ p ∈ ps, p.store = "TJ" ∧ ∃ l₁ r l₂, rows = l₁ ++ r :: l₂ ∧
      r.item_title = some p.name ∧ tjRowPrice? r = some p.price ∧
      (∀ r₁ ∈ l₁, r₁.item_title = some p.name → (tjRowPrice? r₁).isSome = true →
        ∃ t₁ t, strptime? (tjDate r₁) = some t₁ ∧ strptime? (tjDate r) = some t ∧
          Timestamp.Lt t₁ t) ∧
      (∀ r₂ ∈ l₂, r₂.item_title = some p.name → (tjRowPrice? r₂).isSome = true →
        ∃ t₂ t, strptime? (tjDate r₂) = some t₂ ∧ strptime? (tjDate r) = some t ∧
          Timestamp.Le t₂ t)) := by
  obtain ⟨d, hd, hps, inv⟩ := loadTJ_ok_dict h
  subst hps
  refine ⟨?_, ?_, ?_⟩
  · intro n
    rw [List.filter_map]
    rw [List.length_map]
    exact dict_filter_length inv.nodup n
  · intro n
    constructor
    · rintro ⟨p, hp, hname⟩
      obtain ⟨kv, hkv, hfkv⟩ := List.mem_map.1 hp
      have hlk : dictLookup d kv.1 = some kv.2 :=
        dictLookup_of_mem inv.nodup (by simpa using hkv)
      have hn1 : kv.1 = n := by rw [← hname, ← hfkv]
      subst hn1
      obtain ⟨l₁, r, l₂, hpre, hacc, _, _, _, _⟩ := inv.wins kv.1 kv.2 hlk
      exact ⟨r, by rw [hpre]; exact List.mem_append_right _ (List.mem_cons_self _ _),
             hacc.1, hacc.2⟩
    · rintro ⟨r, hr, httl, hpr⟩
      have hs : (dictLookup d n).isSome = true := (inv.keys n).2 ⟨r, hr, httl, hpr⟩
      cases he : dictLookup d n with
      | none => rw [he] at hs; cases hs
      | some e =>
        refine ⟨{ name := n, price := e.price, store := "TJ" }, ?_, rfl⟩
        exact List.mem_map.2 ⟨(n, e), dictLookup_mem he, rfl⟩
  · intro p hp
    obtain ⟨kv, hkv, hfkv⟩ := List.mem_map.1 hp
    have hlk : dictLookup d kv.1 = some kv.2 :=
      dictLookup_of_mem inv.nodup (by simpa using hkv)
    obtain ⟨l₁, r, l₂, hpre, hacc, hpr, hdate, hl₁, hl₂⟩ := inv.wins kv.1 kv.2 hlk
    have hname : p.name = kv.1 := by rw [← hfkv]
    have hprice : p.price = kv.2.price := by rw [← hfkv]
    have hstore : p.store = "TJ" := by rw [← hfkv]
    refine ⟨hstore, l₁, r, l₂, hpre, by rw [hname]; exact hacc.1, by rw [hprice]; exact hpr,
      ?_, ?_⟩
    · intro r₁ h₁ ht₁ hp₁
      exact hl₁ r₁ h₁ ⟨by rwa [hname] at ht₁, hp₁⟩
    · intro r₂ h₂ ht₂ hp₂
      exact hl₂ r₂ h₂ ⟨by rwa [hname] at ht₂, hp₂⟩

/-- C7 (witness): a concrete two-row load where the later Milk row is newer
wins: the result keeps one Milk product with the newer price 3.99. -/
theorem tj_recency_dedup_witness :
    (([{ name := "Milk", price := Rat.divInt 399 100, store := "TJ",
         size := none, unit := none, brand := none, sku := none }] : List Product).filter
      fun p => decide (p.name = "Milk")).length ≤ 1 :=
  (tj_recency_dedup
    [{ sku := none, retail_price := some "3.50", item_title := some "Milk",
       inserted_at := some "2024-01-01 00:00:00", store_code := none, availability := none },
     { sku := none, retail_price := some "3.99", item_title := some "Milk",
       inserted_at := some "2024-06-01 00:00:00", store_code := none, availability := none }]
    [{ name := "Milk", price := Rat.divInt 399 100, store := "TJ",
       size := none, unit := none, brand := none, sku := none }]
    (by with_unfolding_all rfl)).1 "Milk"

/-- C9 (code bug): the spec says no single bad row aborts the whole catalog
load, but in TJPricesFetcher._load_csv the strptime call sits outside the
per-row try/except: a second Milk row with inserted_at not-a-date raises
ValueError into the outer handler, which exits the process — the whole load
aborts — while the same load without that one row succeeds. -/
theorem tj_load_aborts_on_bad_timestamp :
    loadTJ [{ sku := none, retail_price := some "3.50", item_title := some "Milk",
              inserted_at := some "2024-01-01 00:00:00", store_code := none,
              availability := none },
            { sku := none, retail_price := some "3.99", item_title := some "Milk",
              inserted_at := some "not-a-date", store_code := none,
              availability := none }] = Except.error "ValueError: inserted_at" ∧
    loadTJ [{ sku := none, retail_price := some "3.50", item_title := some "Milk",
              inserted_at := some "2024-01-01 00:00:00", store_code := none,
              availability := none }] =
      Except.ok [{ name := "Milk", price := Rat.divInt 7 2, store := "TJ",
                   size := none, unit := none, brand := none, sku := none }] := by
  constructor
  · with_unfolding_all rfl
  · with_unfolding_all rfl
